import Mathlib

/- Verification of the UQ Keras utilities (common/uq_keras_utils.py): a shallow
embedding of the losses, metrics and adaptive callbacks, together with theorems
settling the specification claims. Machine floats are modelled by rationals
where the code is algebraic, and by real numbers where the code is genuinely
transcendental (log, exp). Batches are lists of rows; a row is a list of
rationals. Fallible code returns Except. -/

/-! ## AbstentionAdapt_Callback -/

/-- Constructor arguments of AbstentionAdapt_Callback that the epoch-end update
reads (monitor names are resolved outside, see absOnEpochEnd). -/
structure AbsConfig where
  init_abs_epoch : Nat
  scale_factor : ℚ
  target_acc : ℚ
  max_abs : ℚ
deriving DecidableEq

/-- Mutable state of AbstentionAdapt_Callback: the weight mu and the history
list muvalues. -/
structure AbsState where
  mu : ℚ
  muvalues : List ℚ
deriving DecidableEq

/-- One call of AbstentionAdapt_Callback.on_epoch_end. The arguments
monitorVal and absVal are logs.get(self.monitor) and logs.get(self.abs_monitor).
When the monitor is missing the source calls warnings.warn, but the module
warnings is never imported in uq_keras_utils.py, so Python raises NameError at
that line; when the abstention monitor is missing, comparing None against a
float raises TypeError. Either error aborts the method before the trailing
history append, which is modelled by returning Except.error. -/
def absOnEpochEnd (cfg : AbsConfig) (st : AbsState) (epoch : Nat)
    (monitorVal absVal : Option ℚ) : Except String AbsState :=
  if cfg.init_abs_epoch < epoch then
    match monitorVal with
    | none => Except.error "NameError: name warnings is not defined"
    | some current =>
      match absVal with
      | none => Except.error "TypeError: comparison of NoneType and float"
      | some av =>
        let m1 := if current < cfg.target_acc then st.mu * cfg.scale_factor else st.mu
        let m2 := if cfg.max_abs < av then m1 / cfg.scale_factor else m1
        Except.ok ⟨m2, st.muvalues ++ [m2]⟩
  else
    Except.ok ⟨st.mu, st.muvalues ++ [st.mu]⟩

/-! ## Abstention metrics -/

/-- Auxiliary loop for argmax: current list, next index, best index so far,
best value so far. Ties keep the first occurrence, as numpy and tensorflow
argmax do. -/
def argmaxGo : List ℚ → Nat → Nat → ℚ → Nat
  | [], _, best, _ => best
  | x :: xs, i, best, bv =>
      if bv < x then argmaxGo xs (i + 1) i x else argmaxGo xs (i + 1) best bv

/-- K.argmax over the last axis of one row: index of the first maximal entry. -/
def argmax : List ℚ → Nat
  | [] => 0
  | x :: xs => argmaxGo xs 1 0 x

/-- abstention_acc_metric(nb_classes): true_pred / (total_pred - total_abs),
where total_pred sums the always-true comparison argmax(y_pred)=argmax(y_pred)
and total_abs counts predictions whose argmax is the abstention index.
The division carries no zero guard in the source. -/
def abstention_acc_metric (nb_classes : Nat) (y_true y_pred : List (List ℚ)) : ℚ :=
  let true_pred := (List.zipWith
    (fun t p => if argmax t = argmax p then (1 : ℚ) else 0) y_true y_pred).sum
  let total_abs := (y_pred.map
    (fun p => if argmax p = nb_classes then (1 : ℚ) else 0)).sum
  let total_pred := (y_pred.map
    (fun p => if argmax p = argmax p then (1 : ℚ) else 0)).sum
  true_pred / (total_pred - total_abs)

/-- acc_class_i_metric(class_i): global per-class accuracy; the prediction
argmax is taken over y_pred without its last (abstention) column, and the
division by total_true_i is guarded by K.switch on total_true_i > 0. -/
def acc_class_i_metric (class_i : Nat) (y_true y_pred : List (List ℚ)) : ℚ :=
  let ytrueint := y_true.map (fun r => if argmax r = class_i then (1 : ℚ) else 0)
  let total_true_i := ytrueint.sum
  let ypredint := y_pred.map
    (fun r => if argmax r.dropLast = class_i then (1 : ℚ) else 0)
  let true_i_pred := (List.zipWith (· * ·) ytrueint ypredint).sum
  let acc := true_i_pred / total_true_i
  if 0 < total_true_i then acc else 0

/-- abstention_acc_class_i_metric(nb_classes, class_i): per-class accuracy
restricted to non-abstaining predictions, with the same K.switch guard on
total_true_i > 0. -/
def abstention_acc_class_i_metric (nb_classes class_i : Nat)
    (y_true y_pred : List (List ℚ)) : ℚ :=
  let ytrueint := y_true.map (fun r => if argmax r = class_i then (1 : ℚ) else 0)
  let mask_pred := y_pred.map (fun r => if argmax r = nb_classes then (0 : ℚ) else 1)
  let total_true_i := (List.zipWith (· * ·) ytrueint mask_pred).sum
  let matcher := List.zipWith
    (fun t p => if argmax t = argmax p then (1 : ℚ) else 0) y_true y_pred
  let true_i_pred := (List.zipWith (· * ·) mask_pred
    (List.zipWith (· * ·) ytrueint matcher)).sum
  let acc := true_i_pred / total_true_i
  if 0 < total_true_i then acc else 0

/-! ## Heteroscedastic loss and layout -/

/-- K.mean of a flat list: sum divided by length. -/
def listMean (l : List ℚ) : ℚ := l.sum / l.length

/-- Numpy-style strided column slice r[start::stride] of one row. -/
def colSlice (start stride : Nat) (r : List ℚ) : List ℚ :=
  ((List.range r.length).filter
    (fun i => decide (start ≤ i) && ((i - start) % stride == 0))).map
    (fun i => r.getD i 0)

/-- Column j of a batch, as y_pred[:, j]. -/
def colJ (j : Nat) (y_pred : List (List ℚ)) : List ℚ :=
  y_pred.map (fun r => r.getD j 0)

/-- Mean columns as heteroscedastic_loss decodes them: y_pred[:, 0::nout] when
nout > 1, else column 0 (here for one row). -/
def hetMeanColsCode (nout : Nat) (r : List ℚ) : List ℚ :=
  if 1 < nout then colSlice 0 nout r else [r.getD 0 0]

/-- Log-variance columns as heteroscedastic_loss decodes them:
y_pred[:, 1::nout] when nout > 1, else column 1 (here for one row). -/
def hetLogVarColsCode (nout : Nat) (r : List ℚ) : List ℚ :=
  if 1 < nout then colSlice 1 nout r else [r.getD 1 0]

/-- Mean columns under the layout the docstring and the spec describe:
interleaved (mean_i, log_variance_i) pairs, hence means at columns
0, 2, 4, ... (stride 2). Stated for comparison with hetMeanColsCode. -/
def hetMeanColsSpec (r : List ℚ) : List ℚ := colSlice 0 2 r

/-- Log-variance columns under the documented interleaved layout:
columns 1, 3, 5, ... (stride 2). -/
def hetLogVarColsSpec (r : List ℚ) : List ℚ := colSlice 1 2 r

/-- heteroscedastic_loss(nout): K.mean(K.exp(-log_sig2) * diff_sq + log_sig2)
over all samples and outputs, with the slicing of the source (stride nout).
The exponential is passed as a parameter expf since the claims about this
loss are layout and shape claims, uniform in the exponential. -/
def heteroscedastic_loss (expf : ℚ → ℚ) (nout : Nat)
    (y_true y_pred : List (List ℚ)) : ℚ :=
  let y_out := (y_pred.map (hetMeanColsCode nout)).flatten
  let log_sig2 := (y_pred.map (hetLogVarColsCode nout)).flatten
  let diff_sq := List.zipWith (fun m t => (m - t) ^ 2) y_out y_true.flatten
  listMean (List.zipWith (fun d l => expf (-l) * d + l) diff_sq log_sig2)

/-! ## Quantile losses -/

/-- quantile_loss(quantile, y_true, y_pred): with error e = y_true - y_pred,
K.mean(K.maximum(quantile * e, (quantile - 1) * e)). -/
def quantile_loss (quantile : ℚ) (y_true y_pred : List ℚ) : ℚ :=
  listMean (List.zipWith
    (fun t p => max (quantile * (t - p)) ((quantile - 1) * (t - p))) y_true y_pred)

/-- triple_quantile_loss(nout, lowquantile, highquantile): decodes the median,
low and high components (columns 0, 1, 2 for a single output; strided slices
for nout > 1, as in the source) and returns
quantile_loss(low, ., y_out1) + quantile_loss(high, ., y_out2)
+ 2 * quantile_loss(0.5, ., y_out0). -/
def triple_quantile_loss (nout : Nat) (lowquantile highquantile : ℚ)
    (y_true y_pred : List (List ℚ)) : ℚ :=
  let comp := fun j =>
    if 1 < nout then (y_pred.map (colSlice j nout)).flatten else colJ j y_pred
  quantile_loss lowquantile y_true.flatten (comp 1)
    + quantile_loss highquantile y_true.flatten (comp 2)
    + 2 * quantile_loss (1 / 2) y_true.flatten (comp 0)

/-! ## add_model_output -/

/-- One keras layer, as far as add_model_output inspects it: its name and the
width (units) of its output. -/
structure KLayer where
  name : String
  units : Nat
deriving DecidableEq

/-- The test the source performs on a layer name: the substring dense occurs
in it. -/
def denseInName (s : String) : Bool := 2 ≤ (s.splitOn "dense").length

/-- The backward scan of add_model_output over the layer list (given here
already reversed): walk from the last layer towards the first until a layer
whose name contains dense is found. An empty model raises IndexError at the
first subscript; reaching the first layer without finding a dense layer fails
the assert on the layer name. -/
def scanDense : List KLayer → Except String KLayer
  | [] => Except.error "IndexError: list index out of range"
  | [l] => if denseInName l.name then Except.ok l else Except.error "AssertionError"
  | l :: rest => if denseInName l.name then Except.ok l else scanDense rest

/-- Replace the units of the first layer (of an already reversed layer list)
whose name contains dense. -/
def replaceFirstDense : List KLayer → Nat → List KLayer
  | [], _ => []
  | l :: rest, u =>
      if denseInName l.name then { l with units := u } :: rest
      else l :: replaceFirstDense rest u

/-- The rebuilt model: same layers, with the last dense layer widened to u
units (the source reconstructs the downstream graph with identical configs). -/
def rebuildModel (m : List KLayer) (u : Nat) : List KLayer :=
  (replaceFirstDense m.reverse u).reverse

/-- add_model_output(modelIn, mode, num_add): mode None returns the model
unchanged; otherwise the last dense layer is located (asserts may fail),
then the new output size is units + num_add (abstain, num_add required),
3 * units (qtl), 2 * units (het), and any other mode raises Exception. -/
def add_model_output (modelIn : List KLayer) (mode : Option String)
    (num_add : Option Nat) : Except String (List KLayer) :=
  match mode with
  | none => Except.ok modelIn
  | some md =>
    match scanDense modelIn.reverse with
    | Except.error e => Except.error e
    | Except.ok l =>
      if md = "abstain" then
        match num_add with
        | none => Except.error "AssertionError"
        | some k => Except.ok (rebuildModel modelIn (l.units + k))
      else if md = "qtl" then Except.ok (rebuildModel modelIn (3 * l.units))
      else if md = "het" then Except.ok (rebuildModel modelIn (2 * l.units))
      else Except.error ("ERROR ! Type of mode specified for adding outputs to the model: "
        ++ md ++ " not implemented... Exiting")

/-! ## Contamination_Callback -/

/-- The latent matrix T as Contamination_Callback.__init__ builds it: column 0
holds the sampled uniform values u, column 1 holds 1 - u. Each row is a pair
(P normal, P outlier). -/
def contamInitT (u : List ℚ) : List (ℚ × ℚ) :=
  u.map (fun x => (x, 1 - x))

/-- The E-step of Contamination_Callback.on_epoch_end: given the updated a and
the per-sample values of the normal and Cauchy densities at the residuals,
each row of T becomes
(a * n / (a * n + (1 - a) * c), (1 - a) * c / (a * n + (1 - a) * c)). -/
def contamEStep (a : ℚ) (norm_eval cauchy_eval : List ℚ) : List (ℚ × ℚ) :=
  (norm_eval.zip cauchy_eval).map
    (fun p => (a * p.1 / (a * p.1 + (1 - a) * p.2),
               (1 - a) * p.2 / (a * p.1 + (1 - a) * p.2)))

/-- The gammaSQ update of Contamination_Callback.on_epoch_end: starting from
new_gmSQ = g - eta * grad, halve eta while new_gmSQ < 0, and write back the
first non-negative value. The loop terminates whenever g > 0, which the
hypothesis hg records; the measure is the ceiling of eta * grad / g. -/
def gammaLoop (g grad : ℚ) (hg : 0 < g) (eta : ℚ) : ℚ :=
  if h : g - eta * grad < 0 then gammaLoop g grad hg (eta / 2)
  else g - eta * grad
termination_by (⌈eta * grad / g⌉).toNat
decreasing_by
  have hgr : g < eta * grad := by linarith
  have hr1 : (1 : ℚ) < eta * grad / g := (one_lt_div hg).mpr hgr
  have h2 : (1 : ℤ) + 1 ≤ ⌈eta * grad / g⌉ :=
    Int.add_one_le_ceil_iff.mpr (by exact_mod_cast hr1)
  have hc := Int.le_ceil (eta * grad / g)
  have hcast : ((1 : ℤ) + 1 : ℚ) ≤ (⌈eta * grad / g⌉ : ℚ) := by exact_mod_cast h2
  have hhalf : eta / 2 * grad / g ≤ (⌈eta * grad / g⌉ : ℚ) - 1 := by
    have heq : eta / 2 * grad / g = eta * grad / g / 2 := by ring
    rw [heq]
    push_cast at hcast
    linarith
  have hceil : ⌈eta / 2 * grad / g⌉ ≤ ⌈eta * grad / g⌉ - 1 := by
    apply Int.ceil_le.mpr
    push_cast
    linarith
  omega

/-! ## Abstention loss (real-valued) -/

/-- K.categorical_crossentropy(target, output) with probabilities (not
logits): the output is normalized by its sum and the crossentropy is
-sum(target * log(output / sum(output))). The clipping of the backend is
immaterial on the inputs for which the crossentropy is defined. -/
noncomputable def categorical_crossentropy (t o : List ℝ) : ℝ :=
  -(List.zipWith (fun ti oi => ti * Real.log (oi / o.sum)) t o).sum

/-- abstention_loss(mu, mask): with base_pred = (1 - mask) * y_pred,
base_cost the categorical crossentropy of y_true against base_pred, and
abs_pred = K.mean(mask * y_pred) over the class axis, the loss is
(1 - abs_pred) * base_cost - mu * log(1 - abs_pred), per sample. -/
noncomputable def abstention_loss (mu : ℝ) (mask y_true y_pred : List ℝ) : ℝ :=
  let base_pred := List.zipWith (fun m p => (1 - m) * p) mask y_pred
  let base_cost := categorical_crossentropy y_true base_pred
  let abs_pred := (List.zipWith (· * ·) mask y_pred).sum / y_pred.length
  (1 - abs_pred) * base_cost - mu * Real.log (1 - abs_pred)

/-! ## Theorems -/

/-- C1: AbstentionAdapt_Callback.on_epoch_end leaves mu unchanged when the
epoch is at most init_abs_epoch; past the threshold, with the monitored
accuracy present, below target_acc, and the abstention fraction at most
max_abs, the new mu is the old mu times scale_factor; when the abstention
fraction exceeds max_abs the accuracy-adjusted mu is divided by scale_factor;
and every completed call appends the current mu, so the history grows by
exactly one entry per call. -/
theorem abstentionAdapt_mu_update_rule (cfg : AbsConfig) (st : AbsState)
    (epoch : Nat) (mv av : Option ℚ) :
    (epoch ≤ cfg.init_abs_epoch →
      absOnEpochEnd cfg st epoch mv av =
        Except.ok ⟨st.mu, st.muvalues ++ [st.mu]⟩) ∧
    (∀ c a, cfg.init_abs_epoch < epoch → mv = some c → av = some a →
      c < cfg.target_acc → a ≤ cfg.max_abs →
      absOnEpochEnd cfg st epoch mv av =
        Except.ok ⟨st.mu * cfg.scale_factor,
          st.muvalues ++ [st.mu * cfg.scale_factor]⟩) ∧
    (∀ c a, cfg.init_abs_epoch < epoch → mv = some c → av = some a →
      cfg.max_abs < a →
      absOnEpochEnd cfg st epoch mv av =
        Except.ok ⟨(if c < cfg.target_acc then st.mu * cfg.scale_factor else st.mu)
            / cfg.scale_factor,
          st.muvalues ++ [(if c < cfg.target_acc then st.mu * cfg.scale_factor
            else st.mu) / cfg.scale_factor]⟩) ∧
    (∀ st2, absOnEpochEnd cfg st epoch mv av = Except.ok st2 →
      st2.muvalues.length = st.muvalues.length + 1) := by
  refine ⟨?_, ?_, ?_, ?_⟩
  · intro hle
    simp [absOnEpochEnd, Nat.not_lt.mpr hle]
  · rintro c a hgt rfl rfl hc ha
    simp [absOnEpochEnd, hgt, if_pos hc, if_neg (not_lt.mpr ha)]
  · rintro c a hgt rfl rfl ha
    simp [absOnEpochEnd, hgt, if_pos ha]
  · intro st2 hok
    unfold absOnEpochEnd at hok
    split at hok
    · cases mv with
      | none => simp at hok
      | some c =>
        cases av with
        | none => simp at hok
        | some a =>
          simp only [Except.ok.injEq] at hok
          subst hok
          simp
    · simp only [Except.ok.injEq] at hok
      subst hok
      simp

/-- C1 witness: a concrete call past the threshold with accuracy below target
and abstention within bounds multiplies mu by scale_factor and appends it. -/
theorem abstentionAdapt_mu_update_rule_witness :
    absOnEpochEnd ⟨4, 19/20, 19/20, 1/2⟩ ⟨1, []⟩ 5 (some (1/2)) (some 0) =
      Except.ok ⟨19/20, [19/20]⟩ := by
  have h := (abstentionAdapt_mu_update_rule ⟨4, 19/20, 19/20, 1/2⟩ ⟨1, []⟩ 5
    (some (1/2)) (some 0)).2.1 (1/2) 0 (by norm_num) rfl rfl (by norm_num) (by norm_num)
  simpa using h

/-- C2: with the epoch past the threshold and the monitored key absent from
the logs, on_epoch_end does not warn and continue: the module warnings is
never imported in uq_keras_utils.py, so the call raises NameError, mu is left
unchanged but the per-epoch history append is skipped because the method
aborts (the call returns an error instead of a new state). -/
theorem abstentionAdapt_missing_monitor_raises :
    absOnEpochEnd ⟨4, 19/20, 19/20, 1/2⟩ ⟨1, []⟩ 5 none (some 0) =
      Except.error "NameError: name warnings is not defined" := rfl

/-- C3: the heteroscedastic decoding does not follow the documented layout for
nout = 3. On the documented row (mean_0, S_0, mean_1, S_1, mean_2, S_2)
= (10, 1, 20, 2, 30, 3), the code slices the means with stride nout and gets
[10, 2] - taking the log-variance S_1 as a mean, dropping mean_2, and
producing 2 values where the reshape expects 3 - while the documented
stride-2 interleaved layout yields [10, 20, 30]. -/
theorem heteroscedastic_layout_stride_bug :
    hetMeanColsCode 3 [10, 1, 20, 2, 30, 3] = [10, 2] ∧
    hetMeanColsSpec [10, 1, 20, 2, 30, 3] = [10, 20, 30] ∧
    hetMeanColsCode 3 [10, 1, 20, 2, 30, 3] ≠
      hetMeanColsSpec [10, 1, 20, 2, 30, 3] := by
  refine ⟨by decide, by decide, by decide⟩

/-- C4 (amended): starting from gammaSQ > 0, the halving back-off loop of
Contamination_Callback.on_epoch_end terminates and the written-back value is
non-negative for every learning rate and every raw gradient; it is not always
strictly positive (see the counterexample where it is exactly 0). -/
theorem contamination_gammaSQ_update_nonneg (g grad : ℚ) (hg : 0 < g) (eta : ℚ) :
    0 ≤ gammaLoop g grad hg eta := by
  induction eta using gammaLoop.induct g grad hg with
  | case1 eta hlt ih =>
    rw [gammaLoop, dif_pos hlt]
    exact ih
  | case2 eta hge =>
    rw [gammaLoop, dif_neg hge]
    linarith [not_lt.mp hge]

/-- C4 witness: the non-negativity theorem applied at gammaSQ = 1, gradient 0,
learning rate 1. -/
theorem contamination_gammaSQ_update_nonneg_witness :
    0 ≤ gammaLoop 1 0 (by norm_num) 1 :=
  contamination_gammaSQ_update_nonneg 1 0 (by norm_num) 1

/-- C4 counterexample: with gammaSQ = 1, learning rate eta = 1 and raw
gradient 1, the first candidate 1 - 1 * 1 = 0 already passes the loop guard
new_gmSQ < 0, so the value written back is exactly 0: the update is not
strictly positive. -/
theorem contamination_gammaSQ_update_zero :
    gammaLoop 1 1 (by norm_num) 1 = 0 ∧ ¬ 0 < gammaLoop 1 1 (by norm_num) 1 := by
  have h : gammaLoop 1 1 (by norm_num) 1 = 0 := by
    unfold gammaLoop
    norm_num
  exact ⟨h, by rw [h]; exact lt_irrefl 0⟩

/-- C5 (amended): for every model and every mode string other than the three
recognized tags abstain, qtl, het, add_model_output fails with an error; the
claim as stated also covers mode None, but mode None returns the input model
unchanged (see the counterexample). -/
theorem add_model_output_unknown_mode_errors (m : List KLayer) (s : String)
    (na : Option Nat) (h1 : s ≠ "abstain") (h2 : s ≠ "qtl") (h3 : s ≠ "het") :
    ∃ msg, add_model_output m (some s) na = Except.error msg := by
  unfold add_model_output
  cases hscan : scanDense m.reverse with
  | error e => exact ⟨e, rfl⟩
  | ok l =>
    simp only [if_neg h1, if_neg h2, if_neg h3]
    exact ⟨_, rfl⟩

/-- C5 witness: the amended theorem applied to a one-layer dense model and
the unrecognized mode string foo. -/
theorem add_model_output_unknown_mode_errors_witness :
    ∃ msg, add_model_output [⟨"dense_1", 5⟩] (some "foo") none =
      Except.error msg :=
  add_model_output_unknown_mode_errors [⟨"dense_1", 5⟩] "foo" none
    (by decide) (by decide) (by decide)

/-- C5 counterexample: None is a mode value that is not one of the three
recognized tags, yet add_model_output returns the model unchanged instead of
failing with an error. -/
theorem add_model_output_none_mode_ok :
    add_model_output [⟨"dense_1", 5⟩] none none =
      Except.ok [⟨"dense_1", 5⟩] := rfl

/-- C6: every row of the latent matrix T sums to 1, both at construction
(columns u and 1 - u) and after the E-step, for each sample whose recomputed
denominator a * normal_pdf + (1 - a) * cauchy_pdf is nonzero. -/
theorem contamination_Tk_rows_sum_one (u : List ℚ) (a : ℚ) (nE cE : List ℚ)
    (hden : ∀ p ∈ nE.zip cE, a * p.1 + (1 - a) * p.2 ≠ 0) :
    (∀ r ∈ contamInitT u, r.1 + r.2 = 1) ∧
    (∀ r ∈ contamEStep a nE cE, r.1 + r.2 = 1) := by
  constructor
  · intro r hr
    obtain ⟨x, hx, rfl⟩ := List.mem_map.mp hr
    ring
  · intro r hr
    obtain ⟨p, hp, rfl⟩ := List.mem_map.mp hr
    have hd := hden p hp
    rw [div_add_div_same]
    exact div_self hd

/-- C6 witness: the row-sum theorem at a concrete initialization u = [1/2]
and a concrete E-step with a = 1/2 and unit density values. -/
theorem contamination_Tk_rows_sum_one_witness :
    (∀ r ∈ contamInitT [1/2], r.1 + r.2 = 1) ∧
    (∀ r ∈ contamEStep (1/2) [1] [1], r.1 + r.2 = 1) :=
  contamination_Tk_rows_sum_one [1/2] (1/2) [1] [1]
    (by intro p hp; simp only [List.zip_cons_cons, List.zip_nil_right,
          List.mem_singleton] at hp; rw [hp]; norm_num)

/-- C8: for a single output the triple-quantile loss is exactly
2 * pinball(0.5) on the median column plus pinball(low) on the low column
plus pinball(high) on the high column; and at y_true = [1], predictions
(median, low, high) = (1, 1/2, 3/2) with quantiles 0.1 and 0.9 it equals the
hand-computed pinball reference value 1/10. -/
theorem triple_quantile_loss_decomposition :
    (∀ (lowq highq : ℚ) (y_true y_pred : List (List ℚ)),
      triple_quantile_loss 1 lowq highq y_true y_pred =
        2 * quantile_loss (1/2) y_true.flatten (colJ 0 y_pred)
          + quantile_loss lowq y_true.flatten (colJ 1 y_pred)
          + quantile_loss highq y_true.flatten (colJ 2 y_pred)) ∧
    triple_quantile_loss 1 (1/10) (9/10) [[1]] [[1, 1/2, 3/2]] = 1/10 := by
  constructor
  · intro lowq highq y_true y_pred
    simp only [triple_quantile_loss]
    norm_num
    ring
  · norm_num [triple_quantile_loss, quantile_loss, listMean, colJ, max_def]

/-- Pointwise properties transfer to members of a zipWith. -/
theorem forall_mem_zipWith {α β γ : Type} (f : α → β → γ) (P : γ → Prop)
    (l1 : List α) (l2 : List β) (h : ∀ x ∈ l1, ∀ y ∈ l2, P (f x y)) :
    ∀ z ∈ List.zipWith f l1 l2, P z := by
  induction l1 generalizing l2 with
  | nil => intro z hz; simp at hz
  | cons a l ih =>
    intro z hz
    cases l2 with
    | nil => simp at hz
    | cons b l2t =>
      simp only [List.zipWith_cons_cons, List.mem_cons] at hz
      rcases hz with rfl | hz
      · exact h a (by simp) b (by simp)
      · exact ih l2t (fun x hx y hy => h x (by simp [hx]) y (by simp [hy])) z hz

/-- A list of nonpositive reals has nonpositive sum. -/
theorem list_sum_nonpos {l : List ℝ} (h : ∀ x ∈ l, x ≤ 0) : l.sum ≤ 0 := by
  induction l with
  | nil => simp
  | cons a t ih =>
    simp only [List.sum_cons]
    have ha := h a (by simp)
    have ht := ih (fun x hx => h x (by simp [hx]))
    linarith

/-- The categorical crossentropy of nonnegative targets against nonnegative
outputs is nonnegative: each normalized output lies in [0, 1], so each log
factor is nonpositive. -/
theorem categorical_crossentropy_nonneg (t o : List ℝ)
    (ht : ∀ x ∈ t, 0 ≤ x) (ho : ∀ x ∈ o, 0 ≤ x) :
    0 ≤ categorical_crossentropy t o := by
  unfold categorical_crossentropy
  rw [neg_nonneg]
  apply list_sum_nonpos
  apply forall_mem_zipWith
  intro x hx y hy
  have hs : 0 ≤ o.sum := List.sum_nonneg ho
  have hy0 := ho y hy
  have hdiv0 : 0 ≤ y / o.sum := div_nonneg hy0 hs
  have hy_le : y ≤ o.sum := List.single_le_sum ho y hy
  have hdiv1 : y / o.sum ≤ 1 := by
    rcases eq_or_lt_of_le hs with hs0 | hs0
    · rw [← hs0, div_zero]
      norm_num
    · exact (div_le_one hs0).mpr hy_le
  exact mul_nonpos_of_nonneg_of_nonpos (ht x hx)
    (Real.log_nonpos hdiv0 hdiv1)

/-- C7: for a 0/1 abstention mask, a weight mu that is nonnegative, nonnegative
(one-hot) true labels, nonnegative predicted probabilities, and a mean
abstention probability strictly below 1 (the domain on which the crossentropy
and the log penalty are defined), the abstention loss is nonnegative. -/
theorem abstention_loss_nonneg (mu : ℝ) (mask y_true y_pred : List ℝ)
    (hmu : 0 ≤ mu)
    (hmask : ∀ m ∈ mask, m = 0 ∨ m = 1)
    (ht : ∀ x ∈ y_true, 0 ≤ x)
    (hp : ∀ x ∈ y_pred, 0 ≤ x)
    (habs : (List.zipWith (· * ·) mask y_pred).sum / y_pred.length < 1) :
    0 ≤ abstention_loss mu mask y_true y_pred := by
  have hmask0 : ∀ m ∈ mask, 0 ≤ m ∧ m ≤ 1 := by
    intro m hm
    rcases hmask m hm with rfl | rfl <;> norm_num
  have hbase : ∀ z ∈ List.zipWith (fun m p => (1 - m) * p) mask y_pred, 0 ≤ z := by
    apply forall_mem_zipWith
    intro m hm p hpp
    have h1 := hmask0 m hm
    have h2 := hp p hpp
    nlinarith
  have hce : 0 ≤ categorical_crossentropy y_true
      (List.zipWith (fun m p => (1 - m) * p) mask y_pred) :=
    categorical_crossentropy_nonneg _ _ ht hbase
  have habs0 : 0 ≤ (List.zipWith (· * ·) mask y_pred).sum / y_pred.length := by
    apply div_nonneg
    · apply List.sum_nonneg
      apply forall_mem_zipWith
      intro m hm p hpp
      exact mul_nonneg (hmask0 m hm).1 (hp p hpp)
    · exact Nat.cast_nonneg _
  unfold abstention_loss
  have hlog : Real.log (1 - (List.zipWith (· * ·) mask y_pred).sum / y_pred.length) ≤ 0 :=
    Real.log_nonpos (by linarith) (by linarith)
  have hterm1 : 0 ≤ (1 - (List.zipWith (· * ·) mask y_pred).sum / y_pred.length)
      * categorical_crossentropy y_true
        (List.zipWith (fun m p => (1 - m) * p) mask y_pred) :=
    mul_nonneg (by linarith) hce
  nlinarith [mul_nonpos_of_nonneg_of_nonpos hmu hlog]

/-- C7 witness: a concrete two-class instance (mask on the second column,
mu = 1, one-hot label on class 0, full confidence on class 0) on which the
hypotheses hold and the loss is nonnegative. -/
theorem abstention_loss_nonneg_witness :
    0 ≤ abstention_loss 1 [0, 1] [1, 0] [1, 0] := by
  apply abstention_loss_nonneg
  · norm_num
  · intro m hm
    simp only [List.mem_cons, List.not_mem_nil, or_false] at hm
    rcases hm with rfl | rfl
    · exact Or.inl rfl
    · exact Or.inr rfl
  · intro x hx
    simp only [List.mem_cons, List.not_mem_nil, or_false] at hx
    rcases hx with rfl | rfl <;> norm_num
  · intro x hx
    simp only [List.mem_cons, List.not_mem_nil, or_false] at hx
    rcases hx with rfl | rfl <;> norm_num
  · norm_num

/-- A zipWith product with an all-zero left list sums to zero. -/
theorem sum_zipWith_mul_zero_left (l1 l2 : List ℚ) (h : ∀ x ∈ l1, x = 0) :
    (List.zipWith (· * ·) l1 l2).sum = 0 := by
  induction l1 generalizing l2 with
  | nil => simp
  | cons a l ih =>
    cases l2 with
    | nil => simp
    | cons b l2t =>
      simp only [List.zipWith_cons_cons, List.sum_cons]
      rw [h a (by simp), ih l2t (fun x hx => h x (by simp [hx])), zero_mul, add_zero]

/-- C9: when no ground-truth row has argmax equal to class_i, the class-i
ground-truth count is zero, the K.switch guard fires, and both per-class
accuracy metrics return exactly 0 (in particular no division is performed in
the selected branch). -/
theorem acc_class_metrics_zero_guard (nb_classes class_i : Nat)
    (y_true y_pred : List (List ℚ))
    (h : ∀ r ∈ y_true, argmax r ≠ class_i) :
    acc_class_i_metric class_i y_true y_pred = 0 ∧
    abstention_acc_class_i_metric nb_classes class_i y_true y_pred = 0 := by
  have hz : ∀ x ∈ y_true.map (fun r => if argmax r = class_i then (1 : ℚ) else 0),
      x = 0 := by
    intro x hx
    obtain ⟨r, hr, rfl⟩ := List.mem_map.mp hx
    simp [h r hr]
  constructor
  · simp only [acc_class_i_metric]
    rw [List.sum_eq_zero hz]
    norm_num
  · simp only [abstention_acc_class_i_metric]
    rw [sum_zipWith_mul_zero_left _ _ hz]
    norm_num

/-- C9 witness: a concrete batch with no sample of class 2; both metrics
evaluate to 0. -/
theorem acc_class_metrics_zero_guard_witness :
    acc_class_i_metric 2 [[(1 : ℚ), 0, 0]] [[(0 : ℚ), 1, 0]] = 0 ∧
    abstention_acc_class_i_metric 2 2 [[(1 : ℚ), 0, 0]] [[(0 : ℚ), 1, 0]] = 0 :=
  acc_class_metrics_zero_guard 2 2 [[1, 0, 0]] [[0, 1, 0]] (by decide)

/-- The always-true comparison column of abstention_acc_metric sums to the
batch size. -/
theorem sum_map_self_eq_length (y_pred : List (List ℚ)) :
    (y_pred.map (fun p => if argmax p = argmax p then (1 : ℚ) else 0)).sum =
      y_pred.length := by
  induction y_pred with
  | nil => simp
  | cons a l ih =>
    simp [ih]
    ring

/-- Batch size minus the abstention count equals the number of non-abstaining
predictions. -/
theorem length_filter_ne_eq (nb_classes : Nat) (y_pred : List (List ℚ)) :
    ((y_pred.filter (fun p => argmax p != nb_classes)).length : ℚ) =
      (y_pred.length : ℚ) -
        (y_pred.map (fun p => if argmax p = nb_classes then (1 : ℚ) else 0)).sum := by
  induction y_pred with
  | nil => simp
  | cons a l ih =>
    by_cases hc : argmax a = nb_classes
    · simp only [List.filter_cons, List.map_cons, List.sum_cons, List.length_cons, hc]
      norm_num
      rw [ih]
      ring
    · simp only [List.filter_cons, List.map_cons, List.sum_cons, List.length_cons, hc]
      norm_num [hc]
      rw [ih]
      ring

/-- C10: on every batch with at least one non-abstaining prediction,
abstention_acc_metric equals the count of samples whose predicted argmax
matches the true argmax divided by the count of non-abstaining samples, and
that denominator is strictly positive; the division carries no zero guard, so
this precondition is what keeps the result defined. -/
theorem abstention_acc_metric_formula (nb_classes : Nat)
    (y_true y_pred : List (List ℚ))
    (h : ∃ p ∈ y_pred, argmax p ≠ nb_classes) :
    abstention_acc_metric nb_classes y_true y_pred =
      (List.zipWith (fun t p => if argmax t = argmax p then (1 : ℚ) else 0)
        y_true y_pred).sum
        / ((y_pred.filter (fun p => argmax p != nb_classes)).length : ℚ) ∧
    0 < (y_pred.filter (fun p => argmax p != nb_classes)).length := by
  obtain ⟨p0, hp0, hne⟩ := h
  have hmem : p0 ∈ y_pred.filter (fun p => argmax p != nb_classes) :=
    List.mem_filter.mpr ⟨hp0, by simpa using hne⟩
  have hpos : 0 < (y_pred.filter (fun p => argmax p != nb_classes)).length :=
    List.length_pos.mpr (List.ne_nil_of_mem hmem)
  refine ⟨?_, hpos⟩
  have hshow : abstention_acc_metric nb_classes y_true y_pred =
      (List.zipWith (fun t p => if argmax t = argmax p then (1 : ℚ) else 0)
        y_true y_pred).sum /
        ((y_pred.map (fun p => if argmax p = argmax p then (1 : ℚ) else 0)).sum -
          (y_pred.map (fun p => if argmax p = nb_classes then (1 : ℚ) else 0)).sum) :=
    rfl
  rw [hshow, sum_map_self_eq_length, length_filter_ne_eq]

/-- C10 witness: a concrete one-sample batch whose prediction does not
abstain; the metric is the match count over the single non-abstaining
sample. -/
theorem abstention_acc_metric_formula_witness :
    abstention_acc_metric 2 [[(1 : ℚ), 0, 0]] [[(1 : ℚ), 0, 0]] =
      (List.zipWith (fun t p => if argmax t = argmax p then (1 : ℚ) else 0)
        [[(1 : ℚ), 0, 0]] [[(1 : ℚ), 0, 0]]).sum
        / ((([[(1 : ℚ), 0, 0]] : List (List ℚ)).filter
            (fun p => argmax p != 2)).length : ℚ) ∧
    0 < (([[(1 : ℚ), 0, 0]] : List (List ℚ)).filter
        (fun p => argmax p != 2)).length :=
  abstention_acc_metric_formula 2 [[1, 0, 0]] [[1, 0, 0]] (by decide)
